import Mathlib

/-!
Shallow embedding of `src/poller.go` (package telebot).

The file models the two pollers of the repository:

* `LongPoller.Poll` (src/poller.go:73-94): a loop that, on each iteration,
  non-blockingly checks the `stop` channel (a Go `select` with a `default`
  branch always prefers a ready `stop` case over `default`); if `stop` is not
  ready it calls `b.getUpdates(latestUpd+1, p.Timeout)`.  On error it reports
  `errors.Wrap(err, "getUpdates() failed")` to `b.debug` and continues; on
  success it runs `for _, update := range updates { latestUpd = update.ID;
  dest <- update }`.

* `MiddlewarePoller.Poll` (src/poller.go:43-65): computes the relay capacity
  (`cap := 1; if p.Capacity > 1 { cap = p.Capacity }`), allocates the relay
  channel `middle` and a derived stop channel `stop2`, starts the inner
  poller concurrently, and then loops on `select { case <-stop: close(stop2);
  return; case upd := <-middle: if p.filter(&upd) { dest <- upd } }`.

The embedding turns each loop into a function over the sequence of events the
loop processes.  For the long poller an execution is determined by the list
of completed fetch results together with the moment the stop signal is
raised; for the middleware an execution is determined by the sequence of
`select` outcomes (one per loop iteration), constrained by Go's `select`
semantics: a case may be chosen only when it is ready, and when several cases
are ready the choice is pseudo-random, so any ready case may be chosen.
-/

namespace Telebot

/-- An update record.  The Go `Update` struct is opaque to the poller except
for its `ID` field (a Go `int`), which is the only field `poller.go` reads. -/
structure Update where
  ID : Int
deriving DecidableEq, Repr

/-- Result of one completed `b.getUpdates(latestUpd+1, p.Timeout)` call:
either an error (the `err != nil` branch) or a list of updates, in the order
the slice `updates` holds them. -/
inductive FetchResult where
  | err (msg : String)
  | ok (updates : List Update)
deriving DecidableEq, Repr

/-- Observable state of one `LongPoller.Poll` execution:
the cursor variable `latestUpd`, the updates written to `dest` in order,
the first argument of each `getUpdates` call issued so far in order, and the
messages reported to the `b.debug` side channel in order. -/
structure LPState where
  latestUpd : Int
  delivered : List Update
  requests : List Int
  debugLog : List String
deriving DecidableEq, Repr

/-- Value of `latestUpd` after the loop
`for _, update := range updates { latestUpd = update.ID; dest <- update }`:
each iteration overwrites the cursor with the current update's `ID`. -/
def newCursor (latest : Int) (updates : List Update) : Int :=
  updates.foldl (fun _ u => u.ID) latest

/-- One iteration of `LongPoller.Poll`'s loop in which the `default` branch
runs and the fetch completes with result `f` (src/poller.go:81-91):
the request `latestUpd+1` is recorded; an error is wrapped and reported to
`b.debug`, leaving everything else unchanged; a success appends every update
to `dest` in order, setting `latestUpd` to each update's `ID` just before
writing it. -/
def lpStep (s : LPState) (f : FetchResult) : LPState :=
  match f with
  | .err e =>
      { s with requests := s.requests ++ [s.latestUpd + 1],
               debugLog := s.debugLog ++ ["getUpdates() failed: " ++ e] }
  | .ok us =>
      { s with latestUpd := newCursor s.latestUpd us,
               delivered := s.delivered ++ us,
               requests := s.requests ++ [s.latestUpd + 1] }

/-- State at entry of `LongPoller.Poll`: `var latestUpd int` starts at the Go
zero value 0; nothing delivered, requested or logged yet. -/
def lpInit : LPState := ⟨0, [], [], []⟩

/-- Run the `LongPoller.Poll` loop from state `s` through the given sequence
of completed fetch results. -/
def lpRunFrom (s : LPState) (fs : List FetchResult) : LPState :=
  fs.foldl lpStep s

/-- The observable state of `LongPoller.Poll` after the iterations whose
fetches completed with results `fs`, starting from the initial state. -/
def lpRun (fs : List FetchResult) : LPState :=
  lpRunFrom lpInit fs

/-- When the stop signal is raised relative to the fetch calls of
`LongPoller.Poll`.  `beforeLoop`: the channel is closed before the first
iteration's `select`, which therefore takes `case <-stop` (with a `default`
branch, Go `select` takes a ready case and never `default`) and returns at
once.  `duringFetch n`: the channel is closed while fetch number `n`
(0-indexed) is blocked inside `b.getUpdates`; every `select` up to and
including iteration `n` saw `stop` not ready and ran `default`, fetch `n`
still completes and its result is processed, and the `select` of iteration
`n+1` observes `stop` and returns. -/
inductive StopTiming where
  | beforeLoop
  | duringFetch (n : Nat)
deriving DecidableEq, Repr

/-- The fetch results processed before `LongPoller.Poll` observes the stop
signal, given all fetch results the transport would produce and the timing of
the stop signal. -/
def processedFetches (all : List FetchResult) : StopTiming → List FetchResult
  | .beforeLoop => []
  | .duringFetch n => all.take (n + 1)

/-- Observable state of a complete `LongPoller.Poll` execution that is
stopped by `t`: the loop processes exactly the fetches completed before the
stop signal is observed, then returns. -/
def lpRunStopped (all : List FetchResult) (t : StopTiming) : LPState :=
  lpRun (processedFetches all t)

/-! ## MiddlewarePoller -/

/-- The `Capacity` field of `MiddlewarePoller` (a Go `int`).  The
`Middleware` constructor (src/poller.go:35-40) does not set it, so it keeps
the Go zero value. -/
def middlewareCapacityDefault : Int := 0

/-- The capacity of the relay channel `middle` allocated by
`MiddlewarePoller.Poll` (src/poller.go:44-49):
`cap := 1; if p.Capacity > 1 { cap = p.Capacity }; middle := make(chan Update, cap)`. -/
def relayCapacity (capacity : Int) : Int :=
  if capacity > 1 then capacity else 1

/-- Outcome of one `select` of the `MiddlewarePoller.Poll` loop
(src/poller.go:55-63): either `case upd := <-middle` dequeued update `u`, or
`case <-stop` fired. -/
inductive MWEvent where
  | item (u : Update)
  | stopSignal
deriving DecidableEq, Repr

/-- Go `select` semantics for the middleware loop: when several cases are
ready the runtime picks one pseudo-randomly, so the only constraint a
schedule must satisfy is that `case <-stop` cannot fire before the outer
stop channel is closed.  `validSchedule t evs` holds when the first `t`
`select` outcomes (those that happen before the stop channel is closed) are
all relay items. -/
def validSchedule : Nat → List MWEvent → Bool
  | _, [] => true
  | 0, _ => true
  | t + 1, .item _ :: evs => validSchedule t evs
  | _ + 1, .stopSignal :: _ => false

/-- The updates `MiddlewarePoller.Poll` dequeues from the relay channel
`middle`, in order: one per `item` outcome, up to the first `select` that
takes `case <-stop` (after which the function has returned). -/
def mwReceived : List MWEvent → List Update
  | [] => []
  | .item u :: evs => u :: mwReceived evs
  | .stopSignal :: _ => []

/-- The updates `MiddlewarePoller.Poll` writes to `dest`, in order: a
dequeued update `upd` is forwarded exactly when `p.filter(&upd)` returns
true; the loop ends at the first `select` that takes `case <-stop`. -/
def mwOutput (filter : Update → Bool) : List MWEvent → List Update
  | [] => []
  | .item u :: evs =>
      if filter u then u :: mwOutput filter evs else mwOutput filter evs
  | .stopSignal :: _ => []

/-- All updates the inner poller makes available on the relay channel during
the schedule, including those dequeued only after the stop channel is closed. -/
def mwItems : List MWEvent → List Update
  | [] => []
  | .item u :: evs => u :: mwItems evs
  | .stopSignal :: evs => mwItems evs

/-- The updates `MiddlewarePoller.Poll` writes to `dest` from time `t` on,
where `t` counts `select` outcomes: with the stop channel closed just before
outcome `t`, these are the writes that happen after the stop signal is
raised. -/
def mwWritesFrom (filter : Update → Bool) (t : Nat) (evs : List MWEvent) :
    List Update :=
  mwOutput filter (evs.drop t)

/-- Channel operations `MiddlewarePoller.Poll` can syntactically perform on
the channels in scope (src/poller.go:43-65).  Constructors for operations
the body never contains (`closeDest`, `closeRelay`, `closeOuterStop`) are
included so that their absence from every execution trace is a statement,
not a typing accident. -/
inductive ChanOp where
  | recvStop
  | recvRelay (u : Update)
  | sendDest (u : Update)
  | closeStop2
  | closeDest
  | closeRelay
  | closeOuterStop
deriving DecidableEq, Repr

/-- The sequence of channel operations one `MiddlewarePoller.Poll` execution
performs, per `select` outcome: an `item` outcome is a receive from `middle`
followed, when the filter accepts, by a send to `dest`; a `stopSignal`
outcome is the receive from `stop` followed by `close(stop2)` and return. -/
def mwOps (filter : Update → Bool) : List MWEvent → List ChanOp
  | [] => []
  | .item u :: evs =>
      .recvRelay u ::
        (if filter u then [.sendDest u] else []) ++ mwOps filter evs
  | .stopSignal :: _ => [.recvStop, .closeStop2]

/-! ## Long poller: derived descriptions of one run -/

/-- The updates a run of the loop delivers: the concatenation of all
successful batches, in order. -/
def fetchedUpdates : List FetchResult → List Update
  | [] => []
  | .err _ :: fs => fetchedUpdates fs
  | .ok us :: fs => us ++ fetchedUpdates fs

/-- The value of `latestUpd` after a run that starts with cursor `c`. -/
def runCursor (c : Int) : List FetchResult → Int
  | [] => c
  | .err _ :: fs => runCursor c fs
  | .ok us :: fs => runCursor (newCursor c us) fs

/-- The `getUpdates` arguments issued by a run that starts with cursor `c`. -/
def runRequests (c : Int) : List FetchResult → List Int
  | [] => []
  | .err _ :: fs => (c + 1) :: runRequests c fs
  | .ok us :: fs => (c + 1) :: runRequests (newCursor c us) fs

/-- The debug messages reported by a run. -/
def runDebug : List FetchResult → List String
  | [] => []
  | .err e :: fs => ("getUpdates() failed: " ++ e) :: runDebug fs
  | .ok _ :: fs => runDebug fs

theorem lpRunFrom_cons (s : LPState) (f : FetchResult) (fs : List FetchResult) :
    lpRunFrom s (f :: fs) = lpRunFrom (lpStep s f) fs := rfl

theorem newCursor_cons (c : Int) (u : Update) (us : List Update) :
    newCursor c (u :: us) = newCursor u.ID us := rfl

theorem newCursor_append (c : Int) (l₁ l₂ : List Update) :
    newCursor c (l₁ ++ l₂) = newCursor (newCursor c l₁) l₂ := by
  simp [newCursor, List.foldl_append]

/-- The four observable components of a run, as pure functions of the fetch
results and the starting state. -/
theorem lpRunFrom_eq (s : LPState) (fs : List FetchResult) :
    lpRunFrom s fs =
      ⟨runCursor s.latestUpd fs,
       s.delivered ++ fetchedUpdates fs,
       s.requests ++ runRequests s.latestUpd fs,
       s.debugLog ++ runDebug fs⟩ := by
  induction fs generalizing s with
  | nil => simp [lpRunFrom, fetchedUpdates, runCursor, runRequests, runDebug]
  | cons f fs ih =>
    rw [lpRunFrom_cons, ih]
    cases f with
    | err e =>
      simp [lpStep, runCursor, fetchedUpdates, runRequests, runDebug]
    | ok us =>
      simp [lpStep, runCursor, fetchedUpdates, runRequests, runDebug]

theorem lpRun_eq (fs : List FetchResult) :
    lpRun fs = ⟨runCursor 0 fs, fetchedUpdates fs, runRequests 0 fs, runDebug fs⟩ := by
  simpa [lpRun, lpInit] using lpRunFrom_eq lpInit fs

theorem fetchedUpdates_append (l₁ l₂ : List FetchResult) :
    fetchedUpdates (l₁ ++ l₂) = fetchedUpdates l₁ ++ fetchedUpdates l₂ := by
  induction l₁ with
  | nil => simp [fetchedUpdates]
  | cons f fs ih => cases f <;> simp [fetchedUpdates, ih]

theorem runCursor_append (c : Int) (l₁ l₂ : List FetchResult) :
    runCursor c (l₁ ++ l₂) = runCursor (runCursor c l₁) l₂ := by
  induction l₁ generalizing c with
  | nil => simp [runCursor]
  | cons f fs ih => cases f <;> simp [runCursor, ih]

theorem runRequests_append (c : Int) (l₁ l₂ : List FetchResult) :
    runRequests c (l₁ ++ l₂) = runRequests c l₁ ++ runRequests (runCursor c l₁) l₂ := by
  induction l₁ generalizing c with
  | nil => simp [runRequests, runCursor]
  | cons f fs ih => cases f <;> simp [runRequests, runCursor, ih]

theorem runRequests_length (c : Int) (fs : List FetchResult) :
    (runRequests c fs).length = fs.length := by
  induction fs generalizing c with
  | nil => rfl
  | cons f fs ih => cases f <;> simp [runRequests, ih]

theorem runCursor_eq_newCursor (c : Int) (fs : List FetchResult) :
    runCursor c fs = newCursor c (fetchedUpdates fs) := by
  induction fs generalizing c with
  | nil => rfl
  | cons f fs ih =>
    cases f with
    | err e => simpa [runCursor, fetchedUpdates] using ih c
    | ok us => simp [runCursor, fetchedUpdates, newCursor_append, ih]

theorem newCursor_getLast (c : Int) (l : List Update) :
    newCursor c l = (l.getLast?.map Update.ID).getD c := by
  induction l using List.reverseRecOn with
  | nil => rfl
  | append_singleton l u ih =>
    simp [newCursor_append, newCursor, List.getLast?_concat]

/-! ## Well-formed fetch results

`poller.go` itself never inspects or reorders the identifiers it receives:
it trusts the transport.  The Telegram `getUpdates` contract — each response
batch is strictly increasing in `update_id` and contains only identifiers
not below the requested offset — is expressed here as a decidable predicate
on the fetch results relative to the cursor at the time of each request. -/

/-- `ascendingFrom c us` holds when `us` is strictly increasing in `ID` and
every identifier in it exceeds `c`. -/
def ascendingFrom (c : Int) : List Update → Bool
  | [] => true
  | u :: us => decide (c < u.ID) && ascendingFrom u.ID us

/-- Each successful batch is `ascendingFrom` the cursor held when its fetch
was issued. -/
def wfFetches (c : Int) : List FetchResult → Bool
  | [] => true
  | .err _ :: fs => wfFetches c fs
  | .ok us :: fs => ascendingFrom c us && wfFetches (newCursor c us) fs

theorem ascendingFrom_append (c : Int) (l₁ l₂ : List Update) :
    ascendingFrom c (l₁ ++ l₂) =
      (ascendingFrom c l₁ && ascendingFrom (newCursor c l₁) l₂) := by
  induction l₁ generalizing c with
  | nil => simp [ascendingFrom, newCursor]
  | cons u us ih => simp [ascendingFrom, newCursor_cons, ih, Bool.and_assoc]

theorem ascendingFrom_le_newCursor (c : Int) (l : List Update)
    (h : ascendingFrom c l = true) : c ≤ newCursor c l := by
  induction l generalizing c with
  | nil => exact le_refl c
  | cons u us ih =>
    simp only [ascendingFrom, Bool.and_eq_true, decide_eq_true_eq] at h
    exact le_of_lt (lt_of_lt_of_le h.1 (newCursor_cons c u us ▸ ih u.ID h.2))

theorem ascendingFrom_mem_bounds (c : Int) (l : List Update)
    (h : ascendingFrom c l = true) :
    ∀ u ∈ l, c < u.ID ∧ u.ID ≤ newCursor c l := by
  induction l generalizing c with
  | nil => intro u hu; cases hu
  | cons v vs ih =>
    simp only [ascendingFrom, Bool.and_eq_true, decide_eq_true_eq] at h
    intro u hu
    rw [newCursor_cons]
    rcases List.mem_cons.mp hu with rfl | hu
    · exact ⟨h.1, ascendingFrom_le_newCursor _ _ h.2⟩
    · exact ⟨lt_trans h.1 (ih v.ID h.2 u hu).1, (ih v.ID h.2 u hu).2⟩

theorem ascendingFrom_chain (c : Int) (l : List Update)
    (h : ascendingFrom c l = true) :
    List.Chain' (fun a b : Update => a.ID < b.ID) l := by
  induction l generalizing c with
  | nil => exact List.chain'_nil
  | cons v vs ih =>
    simp only [ascendingFrom, Bool.and_eq_true, decide_eq_true_eq] at h
    refine List.chain'_cons'.mpr ⟨?_, ih v.ID h.2⟩
    intro w hw
    have := ascendingFrom_mem_bounds v.ID vs h.2 w (List.mem_of_mem_head? hw)
    exact this.1

theorem wfFetches_append (c : Int) (l₁ l₂ : List FetchResult) :
    wfFetches c (l₁ ++ l₂) =
      (wfFetches c l₁ && wfFetches (runCursor c l₁) l₂) := by
  induction l₁ generalizing c with
  | nil => simp [wfFetches, runCursor]
  | cons f fs ih =>
    cases f with
    | err e => simp [wfFetches, runCursor, ih]
    | ok us => simp [wfFetches, runCursor, ih, Bool.and_assoc]

/-- Under well-formed fetch results, the whole delivered stream ascends from
the starting cursor. -/
theorem wfFetches_ascending (c : Int) (fs : List FetchResult)
    (h : wfFetches c fs = true) :
    ascendingFrom c (fetchedUpdates fs) = true := by
  induction fs generalizing c with
  | nil => rfl
  | cons f fs ih =>
    cases f with
    | err e => simpa [wfFetches, fetchedUpdates] using ih c h
    | ok us =>
      simp only [wfFetches, Bool.and_eq_true] at h
      simp [fetchedUpdates, ascendingFrom_append, h.1, ih _ h.2]

/-! ## Middleware: derived lemmas -/

theorem mwOutput_eq_filter (f : Update → Bool) (evs : List MWEvent) :
    mwOutput f evs = (mwReceived evs).filter f := by
  induction evs with
  | nil => rfl
  | cons e evs ih =>
    cases e with
    | item u =>
      by_cases hu : f u = true <;>
        simp [mwOutput, mwReceived, List.filter_cons, hu, ih]
    | stopSignal => rfl

theorem mwReceived_sublist_mwItems (evs : List MWEvent) :
    List.Sublist (mwReceived evs) (mwItems evs) := by
  induction evs with
  | nil => exact List.Sublist.refl []
  | cons e evs ih =>
    cases e with
    | item u => exact List.Sublist.cons₂ u ih
    | stopSignal => exact List.nil_sublist _

theorem mwOutput_sublist_mwItems (f : Update → Bool) (evs : List MWEvent) :
    List.Sublist (mwOutput f evs) (mwItems evs) := by
  rw [mwOutput_eq_filter]
  exact List.Sublist.trans (List.filter_sublist _) (mwReceived_sublist_mwItems evs)

theorem mwOutput_stop_absorb (f : Update → Bool) (evs₁ evs₂ : List MWEvent)
    (h : MWEvent.stopSignal ∉ evs₁) :
    mwOutput f (evs₁ ++ .stopSignal :: evs₂) = mwOutput f evs₁ := by
  induction evs₁ with
  | nil => rfl
  | cons e evs ih =>
    cases e with
    | item u =>
      have : MWEvent.stopSignal ∉ evs := fun hm => h (List.mem_cons_of_mem _ hm)
      simp [mwOutput, ih this]
    | stopSignal => exact absurd (List.mem_cons_self _ _) h

theorem mwOps_stop_absorb (f : Update → Bool) (evs₁ evs₂ : List MWEvent)
    (h : MWEvent.stopSignal ∉ evs₁) :
    mwOps f (evs₁ ++ .stopSignal :: evs₂) =
      mwOps f evs₁ ++ [.recvStop, .closeStop2] := by
  induction evs₁ with
  | nil => rfl
  | cons e evs ih =>
    cases e with
    | item u =>
      have : MWEvent.stopSignal ∉ evs := fun hm => h (List.mem_cons_of_mem _ hm)
      simp [mwOps, ih this]
    | stopSignal => exact absurd (List.mem_cons_self _ _) h

theorem mwOps_shape (f : Update → Bool) (evs : List MWEvent)
    (h : MWEvent.stopSignal ∈ evs) :
    ∃ l, mwOps f evs = l ++ [.recvStop, .closeStop2] ∧
      ChanOp.closeStop2 ∉ l ∧ ChanOp.recvStop ∉ l := by
  induction evs with
  | nil => cases h
  | cons e evs ih =>
    cases e with
    | item u =>
      have he : MWEvent.stopSignal ∈ evs := by
        rcases List.mem_cons.mp h with h' | h'
        · exact absurd h' (by simp)
        · exact h'
      obtain ⟨l, hl, h2, h3⟩ := ih he
      refine ⟨.recvRelay u :: (if f u then [.sendDest u] else []) ++ l, ?_, ?_, ?_⟩
      · simp [mwOps, hl]
      · by_cases hu : f u = true <;> simp [hu, h2]
      · by_cases hu : f u = true <;> simp [hu, h3]
    | stopSignal => exact ⟨[], rfl, by simp, by simp⟩

theorem mwOps_count_closeStop2 (f : Update → Bool) (evs : List MWEvent) :
    (mwOps f evs).count ChanOp.closeStop2 =
      if MWEvent.stopSignal ∈ evs then 1 else 0 := by
  induction evs with
  | nil => rfl
  | cons e evs ih =>
    cases e with
    | item u =>
      have hmem : (MWEvent.stopSignal ∈ MWEvent.item u :: evs) =
          (MWEvent.stopSignal ∈ evs) := by simp
      by_cases hu : f u = true <;>
        simp [mwOps, hu, List.count_cons, List.count_append, ih, hmem]
    | stopSignal => simp [mwOps, List.count_cons]

theorem mwOps_no_other_close (f : Update → Bool) (evs : List MWEvent) :
    ChanOp.closeDest ∉ mwOps f evs ∧ ChanOp.closeRelay ∉ mwOps f evs ∧
      ChanOp.closeOuterStop ∉ mwOps f evs := by
  induction evs with
  | nil => exact ⟨by simp [mwOps], by simp [mwOps], by simp [mwOps]⟩
  | cons e evs ih =>
    cases e with
    | item u =>
      by_cases hu : f u = true <;>
        simpa [mwOps, hu] using ih
    | stopSignal => exact ⟨by simp [mwOps], by simp [mwOps], by simp [mwOps]⟩

theorem requests_getElem (fs : List FetchResult) (i : Nat) (h : i < fs.length) :
    (runRequests 0 fs)[i]? = some (runCursor 0 (fs.take i) + 1) := by
  have hsplit : fs = fs.take i ++ fs.drop i := (List.take_append_drop i fs).symm
  have hlen : (runRequests 0 (fs.take i)).length = i := by
    rw [runRequests_length, List.length_take]
    exact Nat.min_eq_left (le_of_lt h)
  conv_lhs => rw [hsplit, runRequests_append]
  rw [List.getElem?_append_right (le_of_eq hlen), hlen, Nat.sub_self]
  cases hd : fs.drop i with
  | nil =>
    exact absurd (List.drop_eq_nil_iff.mp hd) (not_le.mpr h)
  | cons f rest =>
    cases f <;> simp [runRequests]

theorem fetchedUpdates_replicate_err (n : Nat) (e : String) :
    fetchedUpdates (List.replicate n (.err e)) = [] := by
  induction n with
  | zero => rfl
  | succ n ih => simpa [List.replicate_succ, fetchedUpdates] using ih

theorem runRequests_replicate_err (c : Int) (n : Nat) (e : String) :
    runRequests c (List.replicate n (.err e)) = List.replicate n (c + 1) := by
  induction n with
  | zero => rfl
  | succ n ih => simp [List.replicate_succ, runRequests, ih]

theorem runDebug_replicate_err (n : Nat) (e : String) :
    runDebug (List.replicate n (.err e)) =
      List.replicate n ("getUpdates() failed: " ++ e) := by
  induction n with
  | zero => rfl
  | succ n ih => simp [List.replicate_succ, runDebug, ih]

theorem mwOps_send_filtered (f : Update → Bool) (evs : List MWEvent)
    (u : Update) (h : ChanOp.sendDest u ∈ mwOps f evs) : f u = true := by
  induction evs with
  | nil => cases h
  | cons e evs ih =>
    cases e with
    | item v =>
      by_cases hv : f v = true
      · rcases (by simpa [mwOps, hv] using h :
            ChanOp.sendDest u = ChanOp.recvRelay v ∨
              ChanOp.sendDest u = ChanOp.sendDest v ∨
              ChanOp.sendDest u ∈ mwOps f evs) with h' | h' | h'
        · cases h'
        · cases h'; exact hv
        · exact ih h'
      · rcases (by simpa [mwOps, hv] using h :
            ChanOp.sendDest u = ChanOp.recvRelay v ∨
              ChanOp.sendDest u ∈ mwOps f evs) with h' | h'
        · cases h'
        · exact ih h'
    | stopSignal => simp [mwOps] at h

/-- Scenario of spec §8: relay input `[5, 7, 7, 9]` under the filter
"identifier is odd" passes through unchanged. -/
theorem mw_scenario_odd :
    mwOutput (fun u => u.ID % 2 == 1)
      [.item ⟨5⟩, .item ⟨7⟩, .item ⟨7⟩, .item ⟨9⟩, .stopSignal]
      = [⟨5⟩, ⟨7⟩, ⟨7⟩, ⟨9⟩] := by decide

/-- Scenario of spec §8: the same relay input under the filter
"identifier > 6" yields `[7, 7, 9]`. -/
theorem mw_scenario_above_six :
    mwOutput (fun u => decide (u.ID > 6))
      [.item ⟨5⟩, .item ⟨7⟩, .item ⟨7⟩, .item ⟨9⟩, .stopSignal]
      = [⟨7⟩, ⟨7⟩, ⟨9⟩] := by decide

/-! ## Claims -/

/-- **C1, counterexample.** The claim quantifies over *every* sequence of
fetch results, but `LongPoller.Poll` sets `latestUpd` to the `ID` of each
update in slice order, without comparing: on the single fetch result
`[{ID:5}, {ID:3}]` the update with identifier 5 is delivered during fetch 1,
yet the cursor used to form fetch request 2 is 3 (< 5), as the recorded
request sequence `[1, 4]` shows, and the update with identifier 3 is
delivered at a moment when the cursor already passed 5 — the delivered
stream is not even strictly increasing. -/
theorem lp_cursor_monotone_counterexample :
    (lpRun [.ok [⟨5⟩, ⟨3⟩]]).delivered = [⟨5⟩, ⟨3⟩] ∧
    (lpRun [.ok [⟨5⟩, ⟨3⟩]]).latestUpd = 3 ∧
    ¬ ((5 : Int) ≤ (lpRun [.ok [⟨5⟩, ⟨3⟩]]).latestUpd) ∧
    (lpRun [.ok [⟨5⟩, ⟨3⟩], .ok []]).requests = [1, 4] ∧
    ¬ List.Chain' (fun a b : Update => a.ID < b.ID)
        (lpRun [.ok [⟨5⟩, ⟨3⟩]]).delivered := by
  refine ⟨by decide, by decide, by decide, by decide, ?_⟩
  intro hC
  rw [show (lpRun [.ok [⟨5⟩, ⟨3⟩]]).delivered = [⟨5⟩, ⟨3⟩] from rfl,
    List.chain'_cons] at hC
  exact absurd hC.1 (by decide)

/-- **C1 (amended).** Provided every successful fetch returns a batch that is
strictly increasing in identifier with all identifiers above the cursor held
at request time (`wfFetches`, the `getUpdates` contract), the cursor used to
form each next request is ≥ every update identifier delivered so far, the
cursor never decreases afterwards, and no update delivered later has an
identifier ≤ any intermediate cursor — in particular the delivered stream is
strictly increasing, so nothing is ever re-delivered. -/
theorem lp_cursor_monotone_wf (fs : List FetchResult)
    (h : wfFetches 0 fs = true) :
    List.Chain' (fun a b : Update => a.ID < b.ID) (lpRun fs).delivered ∧
    ∀ i, i ≤ fs.length →
      (∀ u ∈ (lpRun (fs.take i)).delivered,
        u.ID ≤ (lpRun (fs.take i)).latestUpd) ∧
      (lpRun (fs.take i)).latestUpd ≤ (lpRun fs).latestUpd ∧
      (∀ u ∈ (lpRun fs).delivered.drop (lpRun (fs.take i)).delivered.length,
        (lpRun (fs.take i)).latestUpd < u.ID) := by
  have hasc : ascendingFrom 0 (fetchedUpdates fs) = true := wfFetches_ascending 0 fs h
  constructor
  · rw [lpRun_eq]
    exact ascendingFrom_chain 0 _ hasc
  · intro i _
    have hW : (wfFetches 0 (fs.take i) &&
        wfFetches (runCursor 0 (fs.take i)) (fs.drop i)) = true := by
      rw [← wfFetches_append, List.take_append_drop]
      exact h
    rw [Bool.and_eq_true] at hW
    have hascA : ascendingFrom 0 (fetchedUpdates (fs.take i)) = true :=
      wfFetches_ascending _ _ hW.1
    have hascB : ascendingFrom (runCursor 0 (fs.take i))
        (fetchedUpdates (fs.drop i)) = true :=
      wfFetches_ascending _ _ hW.2
    have hcur : runCursor 0 fs =
        newCursor (runCursor 0 (fs.take i)) (fetchedUpdates (fs.drop i)) := by
      conv_lhs => rw [← List.take_append_drop i fs]
      rw [runCursor_append, runCursor_eq_newCursor]
    have hdel : fetchedUpdates fs =
        fetchedUpdates (fs.take i) ++ fetchedUpdates (fs.drop i) := by
      conv_lhs => rw [← List.take_append_drop i fs]
      rw [fetchedUpdates_append]
    refine ⟨?_, ?_, ?_⟩
    · intro u hu
      simp only [lpRun_eq] at hu ⊢
      rw [runCursor_eq_newCursor]
      exact (ascendingFrom_mem_bounds 0 _ hascA u hu).2
    · simp only [lpRun_eq]
      show runCursor 0 (fs.take i) ≤ runCursor 0 fs
      rw [hcur]
      exact ascendingFrom_le_newCursor _ _ hascB
    · intro u hu
      simp only [lpRun_eq] at hu ⊢
      rw [hdel, List.drop_left] at hu
      exact (ascendingFrom_mem_bounds _ _ hascB u hu).1

/-- Witness for `lp_cursor_monotone_wf`: the hypothesis is satisfiable and
the conclusion holds on a concrete well-formed run. -/
theorem lp_cursor_monotone_wf_witness :
    wfFetches 0 [.ok [⟨1⟩, ⟨3⟩], .err "e", .ok [⟨5⟩]] = true ∧
    List.Chain' (fun a b : Update => a.ID < b.ID)
      (lpRun [.ok [⟨1⟩, ⟨3⟩], .err "e", .ok [⟨5⟩]]).delivered :=
  ⟨by decide, (lp_cursor_monotone_wf _ (by decide)).1⟩

/-- **C2, counterexample.** If the stop signal is raised while the first
fetch is already in flight, `LongPoller.Poll` only observes `stop` at the
next iteration's `select`: the in-flight fetch completes and its updates are
written to the destination, so the destination receives one update, not
zero. -/
theorem lp_stop_inflight_counterexample :
    (lpRunStopped [.ok [⟨1⟩]] (.duringFetch 0)).delivered = [⟨1⟩] ∧
    (lpRunStopped [.ok [⟨1⟩]] (.duringFetch 0)).delivered ≠ [] := by decide

/-- **C2 (amended).** If the stop signal is raised before the first fetch
call is *started*, the first `select` observes `stop` and `Poll` returns with
zero updates written, zero fetches issued and nothing logged.  (Updates of a
fetch already in flight when stop is raised are still delivered, as the
counterexample shows.) -/
theorem lp_stop_before_first_fetch (all : List FetchResult) :
    (lpRunStopped all .beforeLoop).delivered = [] ∧
    (lpRunStopped all .beforeLoop).requests = [] ∧
    (lpRunStopped all .beforeLoop).debugLog = [] :=
  ⟨rfl, rfl, rfl⟩

/-- **C3.** Every update the middleware forwards to `dest` satisfies the
filter, every dequeued update failing the filter is dropped, and — occurrence
by occurrence — the forwarded stream is exactly the filter of the dequeued
stream. -/
theorem mw_filter_correct (f : Update → Bool) (evs : List MWEvent) :
    mwOutput f evs = (mwReceived evs).filter f ∧
    (∀ u ∈ mwOutput f evs, f u = true) ∧
    (∀ u ∈ mwReceived evs, (u ∈ mwOutput f evs ↔ f u = true)) := by
  refine ⟨mwOutput_eq_filter f evs, ?_, ?_⟩
  · intro u hu
    rw [mwOutput_eq_filter] at hu
    exact List.of_mem_filter hu
  · intro u hu
    rw [mwOutput_eq_filter]
    constructor
    · exact fun h => List.of_mem_filter h
    · exact fun h => List.mem_filter.mpr ⟨hu, h⟩

/-- Witness for `mw_filter_correct` on a concrete schedule and filter. -/
theorem mw_filter_correct_witness :
    ((⟨7⟩ : Update) ∈ mwOutput (fun u => u.ID % 2 == 1)
        [.item ⟨7⟩, .item ⟨4⟩, .stopSignal] ↔
      (fun u : Update => u.ID % 2 == 1) ⟨7⟩ = true) :=
  (mw_filter_correct _ _).2.2 ⟨7⟩ (by decide)

/-- **C4.** For every filter and every schedule, what the middleware writes
to `dest` is a sublist — same relative order, no duplication, only
omissions — both of the updates it dequeued from the relay channel and of
everything the inner poller put on the relay channel. -/
theorem mw_order_preserved (f : Update → Bool) (evs : List MWEvent) :
    List.Sublist (mwOutput f evs) (mwReceived evs) ∧
    List.Sublist (mwOutput f evs) (mwItems evs) := by
  constructor
  · rw [mwOutput_eq_filter]
    exact List.filter_sublist _
  · exact mwOutput_sublist_mwItems f evs

/-- **C5.** On each iteration of `LongPoller.Poll`'s loop either the stop
signal has been observed — then no fetch at all is issued — or a fetch
request is issued whose argument is exactly `latestUpd + 1`, the cursor held
before that iteration plus one. -/
theorem lp_loop_invariant (fs : List FetchResult) :
    (lpRunStopped fs .beforeLoop).requests = [] ∧
    (lpRun fs).requests.length = fs.length ∧
    ∀ i, i < fs.length →
      (lpRun fs).requests[i]? = some ((lpRun (fs.take i)).latestUpd + 1) := by
  refine ⟨rfl, ?_, ?_⟩
  · rw [lpRun_eq]
    exact runRequests_length 0 fs
  · intro i hi
    simp only [lpRun_eq]
    exact requests_getElem fs i hi

/-- Witness for `lp_loop_invariant` at iteration 1 of a concrete run. -/
theorem lp_loop_invariant_witness :
    (lpRun [.err "e", .ok [⟨2⟩]]).requests[1]? =
      some ((lpRun ([FetchResult.err "e", .ok [⟨2⟩]].take 1)).latestUpd + 1) :=
  (lp_loop_invariant [.err "e", .ok [⟨2⟩]]).2.2 1 (by decide)

/-- **C6.** The relay channel capacity is 1 for every configured `Capacity`
value ≤ 1 (including the zero value left by the `Middleware` constructor and
negative values) and equals `Capacity` whenever `Capacity` > 1. -/
theorem mw_relay_capacity (c : Int) :
    (c ≤ 1 → relayCapacity c = 1) ∧
    (1 < c → relayCapacity c = c) ∧
    relayCapacity middlewareCapacityDefault = 1 := by
  refine ⟨fun h => ?_, fun h => ?_, by decide⟩
  · rw [relayCapacity, if_neg (not_lt.mpr h)]
  · rw [relayCapacity, if_pos h]

/-- Witness for `mw_relay_capacity` at a negative and a large capacity. -/
theorem mw_relay_capacity_witness :
    relayCapacity (-3) = 1 ∧ relayCapacity 5 = 5 :=
  ⟨(mw_relay_capacity (-3)).1 (by decide), (mw_relay_capacity 5).2.1 (by decide)⟩

/-- **C7.** A failed fetch only appends the wrapped error to the debug side
channel and the attempted request to the request log: nothing is written to
`dest`, the cursor is untouched, and the loop goes on — a run of `n`
consecutive failures issues `n` identical requests (argument 1, no backoff,
no attempt limit), delivers nothing, and logs `n` wrapped errors; for any
fetch results whatsoever the loop issues one request per result and never
exits on its own (only the stop signal, modelled by `lpRunStopped`, ends a
run). -/
theorem lp_error_isolated :
    (∀ (s : LPState) (e : String),
      lpStep s (.err e) =
        { s with requests := s.requests ++ [s.latestUpd + 1],
                 debugLog := s.debugLog ++ ["getUpdates() failed: " ++ e] }) ∧
    (∀ fs : List FetchResult, (lpRun fs).requests.length = fs.length) ∧
    (∀ (n : Nat) (e : String),
      (lpRun (List.replicate n (.err e))).delivered = [] ∧
      (lpRun (List.replicate n (.err e))).requests = List.replicate n 1 ∧
      (lpRun (List.replicate n (.err e))).debugLog =
        List.replicate n ("getUpdates() failed: " ++ e)) := by
  refine ⟨fun s e => rfl, fun fs => ?_, fun n e => ?_⟩
  · rw [lpRun_eq]
    exact runRequests_length 0 fs
  · refine ⟨?_, ?_, ?_⟩ <;>
      simp [lpRun_eq, fetchedUpdates_replicate_err, runRequests_replicate_err,
        runDebug_replicate_err]

/-- **C8, counterexample.** Go's `select` chooses pseudo-randomly among ready
cases, so after the outer stop channel is closed (time 0) a schedule in which
the loop still picks two ready relay items before taking the stop case is a
valid execution: two updates — not at most one — are written to `dest` after
the stop signal is raised. -/
theorem mw_two_writes_after_stop_raised :
    validSchedule 0 [.item ⟨1⟩, .item ⟨2⟩, .stopSignal] = true ∧
    mwWritesFrom (fun _ => true) 0 [.item ⟨1⟩, .item ⟨2⟩, .stopSignal]
      = [⟨1⟩, ⟨2⟩] ∧
    1 < (mwWritesFrom (fun _ => true) 0
      [.item ⟨1⟩, .item ⟨2⟩, .stopSignal]).length := by decide

/-- **C8 (amended).** Once `MiddlewarePoller.Poll` *observes* the outer stop
(its `select` takes the stop case), it closes the derived stop channel as its
final channel operation and returns: no event after that observation — in
particular nothing the inner poller produces after the derived stop is
raised — contributes anything to `dest`.  Between the raising of the outer
stop and its observation, however, any number of ready relay items may still
be forwarded (see the counterexample), not at most one. -/
theorem mw_silent_after_stop_observed (f : Update → Bool)
    (evs₁ evs₂ : List MWEvent) (h : MWEvent.stopSignal ∉ evs₁) :
    mwOutput f (evs₁ ++ .stopSignal :: evs₂) = mwOutput f evs₁ ∧
    mwOps f (evs₁ ++ .stopSignal :: evs₂) =
      mwOps f evs₁ ++ [.recvStop, .closeStop2] :=
  ⟨mwOutput_stop_absorb f evs₁ evs₂ h, mwOps_stop_absorb f evs₁ evs₂ h⟩

/-- Witness for `mw_silent_after_stop_observed`: an item relayed after the
stop observation is not forwarded. -/
theorem mw_silent_after_stop_observed_witness :
    mwOutput (fun u => decide (0 < u.ID)) ([.item ⟨1⟩] ++ .stopSignal :: [.item ⟨2⟩]) =
      mwOutput (fun u => decide (0 < u.ID)) [.item ⟨1⟩] :=
  (mw_silent_after_stop_observed _ [.item ⟨1⟩] [.item ⟨2⟩] (by decide)).1

/-- **C9.** The cursor of `LongPoller.Poll` always equals the identifier of
the most recently delivered update (0 before any delivery); a failed fetch
changes neither the cursor nor the delivered stream, and the iteration after
an error repeats exactly the same request argument. -/
theorem lp_cursor_tracks_delivery (fs : List FetchResult) :
    ((lpRun fs).latestUpd =
      (((lpRun fs).delivered.getLast?).map Update.ID).getD 0) ∧
    (∀ (s : LPState) (e : String),
      (lpStep s (.err e)).latestUpd = s.latestUpd ∧
      (lpStep s (.err e)).delivered = s.delivered) ∧
    (∀ (i : Nat) (e : String), fs[i]? = some (.err e) → i + 1 < fs.length →
      (lpRun fs).requests[i]? = (lpRun fs).requests[i + 1]?) := by
  refine ⟨?_, fun s e => ⟨rfl, rfl⟩, ?_⟩
  · simp only [lpRun_eq]
    show runCursor 0 fs = ((fetchedUpdates fs).getLast?.map Update.ID).getD 0
    rw [runCursor_eq_newCursor, newCursor_getLast]
  · intro i e hfe hlt
    have hi : i < fs.length := Nat.lt_of_succ_lt hlt
    simp only [lpRun_eq]
    show (runRequests 0 fs)[i]? = (runRequests 0 fs)[i + 1]?
    rw [requests_getElem fs i hi, requests_getElem fs (i + 1) hlt]
    have htake : fs.take (i + 1) = fs.take i ++ [FetchResult.err e] := by
      rw [List.take_succ, hfe]
      rfl
    rw [htake, runCursor_append]
    rfl

/-- Witness for `lp_cursor_tracks_delivery`: after a failed first fetch the
second request repeats the first. -/
theorem lp_cursor_tracks_delivery_witness :
    (lpRun [.err "e", .ok [⟨2⟩], .ok [⟨3⟩]]).requests[0]? =
      (lpRun [.err "e", .ok [⟨2⟩], .ok [⟨3⟩]]).requests[1]? :=
  (lp_cursor_tracks_delivery [.err "e", .ok [⟨2⟩], .ok [⟨3⟩]]).2.2 0 "e"
    (by decide) (by decide)

/-- **C10.** In every execution trace of `MiddlewarePoller.Poll` the
destination channel, the relay channel and the outer stop channel are never
closed; every send to `dest` carries an update accepted by the filter; the
derived stop channel is closed exactly once if and only if the outer stop is
observed, and in that case the receive from `stop` followed by
`close(stop2)` are the trace's final two operations. -/
theorem mw_channel_frame (f : Update → Bool) (evs : List MWEvent) :
    ChanOp.closeDest ∉ mwOps f evs ∧
    ChanOp.closeRelay ∉ mwOps f evs ∧
    ChanOp.closeOuterStop ∉ mwOps f evs ∧
    ((mwOps f evs).count ChanOp.closeStop2 =
      if MWEvent.stopSignal ∈ evs then 1 else 0) ∧
    (∀ u : Update, ChanOp.sendDest u ∈ mwOps f evs → f u = true) ∧
    (MWEvent.stopSignal ∈ evs →
      ∃ l, mwOps f evs = l ++ [.recvStop, .closeStop2] ∧
        ChanOp.closeStop2 ∉ l ∧ ChanOp.recvStop ∉ l) := by
  obtain ⟨h1, h2, h3⟩ := mwOps_no_other_close f evs
  exact ⟨h1, h2, h3, mwOps_count_closeStop2 f evs,
    fun u hu => mwOps_send_filtered f evs u hu,
    fun hs => mwOps_shape f evs hs⟩

/-- Witness for `mw_channel_frame`: a concrete send to `dest` satisfies the
filter. -/
theorem mw_channel_frame_witness :
    (fun u : Update => u.ID == 1) ⟨1⟩ = true :=
  (mw_channel_frame (fun u : Update => u.ID == 1)
    [MWEvent.item ⟨1⟩, MWEvent.stopSignal]).2.2.2.2.1 ⟨1⟩ (by decide)

end Telebot
